import Mathlib

/-!
Shallow embedding of the obsidian-claude-code plugin sources:
`src/utils/toolDisplay.ts` (re-exported through `interfaces/ILogger.ts`),
`src/interfaces/ILogger.ts` (`createConsoleLogger`),
`src/settings/SettingsTab.ts` (setting change handlers and `McpServerModal.save`),
`src/views/AutocompletePopup.ts` (`getFileSuggestions`, `show`, `hide`) and
`src/views/ToolCallDisplay.ts` (`update`).

JavaScript strings are modelled as Lean `String`s manipulated through their
character lists; the JS string methods used by the sources (`toLowerCase`,
`trim`, `startsWith`, `includes`, `split`, `replace`, `indexOf`) are given
executable ASCII models below.  JS numbers produced by `parseFloat` are
modelled exactly as sign-carrying decimal fractions (an integer numerator and
a power-of-ten denominator), with `Infinity` as a separate constructor and
`NaN` as `Option.none`; this is an exact-rational idealization of IEEE
doubles, faithful for every comparison the settings handlers perform.
-/

/-- Model of `String.prototype.toLowerCase` on one ASCII character. -/
def jsToLowerChar (c : Char) : Char :=
  if 'A' ≤ c ∧ c ≤ 'Z' then Char.ofNat (c.toNat + 32) else c

/-- Model of `String.prototype.toLowerCase` (ASCII range). -/
def jsToLower (s : String) : String :=
  String.mk (s.data.map jsToLowerChar)

/-- Whitespace recognised by JS `trim`, `parseFloat`, `parseInt` and `\s`
(ASCII subset: space, tab, newline, carriage return, vertical tab, form feed). -/
def isWsChar (c : Char) : Bool :=
  c = ' ' || c = '\t' || c = '\n' || c = '\r' || c.toNat = 11 || c.toNat = 12

/-- Model of `String.prototype.trim`. -/
def jsTrim (s : String) : String :=
  String.mk (((s.data.dropWhile isWsChar).reverse.dropWhile isWsChar).reverse)

/-- Model of `String.prototype.startsWith`. -/
def jsStartsWith (s pre : String) : Bool :=
  pre.data.isPrefixOf s.data

/-- Model of `String.prototype.includes`: substring containment. -/
def jsIncludes (s sub : String) : Bool :=
  decide (sub.data <:+: s.data)

/-- Model of `String.prototype.split(sep)` for a one-character separator:
splits at every occurrence, keeping empty segments (JS semantics). -/
def jsSplitChar (s : String) (sep : Char) : List String :=
  (s.data.splitOnP (· = sep)).map String.mk

/-- Model of `str.split(/\s+/)` on a string with no leading or trailing
whitespace: the maximal whitespace-free runs.  (Splitting on single
whitespace characters and discarding empty segments computes exactly the
runs separated by whitespace when the input is trimmed, which is the only
way `McpServerModal.save` calls it.) -/
def jsSplitWs (s : String) : List String :=
  ((s.data.splitOnP isWsChar).map String.mk).filter (· ≠ "")

/-- Model of `String.prototype.replace(pat, "")` for a plain-string pattern:
removes the first occurrence of `pat`, scanning left to right. -/
def jsRemoveFirstAux (pat : List Char) : List Char → List Char
  | [] => []
  | c :: rest =>
    if pat.isPrefixOf (c :: rest) then (c :: rest).drop pat.length
    else c :: jsRemoveFirstAux pat rest

/-- Model of `name.replace("…", "")`: remove the first occurrence. -/
def jsRemoveFirst (s pat : String) : String :=
  String.mk (jsRemoveFirstAux pat.data s.data)

/-- Model of `shortName.replace(/_/g, " ")`: every underscore becomes a
space. -/
def underscoresToSpaces (s : String) : String :=
  String.mk (s.data.map (fun c => if c = '_' then ' ' else c))

/-- Decimal digit test, as used by the JS numeric grammars. -/
def isDigitChar (c : Char) : Bool :=
  '0' ≤ c && c ≤ '9'

/-- Numeric value of a decimal digit character. -/
def digitVal (c : Char) : Nat :=
  c.toNat - '0'.toNat

/-- Value of a list of decimal digits, most significant first. -/
def digitsToNat (ds : List Char) : Nat :=
  ds.foldl (fun acc c => acc * 10 + digitVal c) 0

/-- Read an optional leading sign, returning the sign and the rest. -/
def readSign : List Char → Int × List Char
  | '+' :: cs => (1, cs)
  | '-' :: cs => (-1, cs)
  | cs => (1, cs)

/-- A JS number as produced by `parseFloat`: an exact signed decimal
fraction `num / den` (`den` a positive power of ten), or an infinity.
`NaN` is represented by `Option.none` at the parser's result type. -/
inductive JsNum where
  | finite (num : Int) (den : Nat)
  | inf
  | negInf
  deriving DecidableEq, Repr

/-- The JS comparison `x > 0` on a parsed number. -/
def JsNum.pos : JsNum → Bool
  | .finite num _ => decide (0 < num)
  | .inf => true
  | .negInf => false

/-- Assemble a finite JS number from a sign, the digit value of the
mantissa, and a base-ten scale. -/
def mkJsFinite (sign : Int) (digits : Nat) (scale : Int) : JsNum :=
  if 0 ≤ scale then .finite (sign * digits * (10 ^ scale.toNat)) 1
  else .finite (sign * digits) (10 ^ (-scale).toNat)

/-- Exponent part of the JS `parseFloat` grammar: `e`/`E`, an optional
sign, and at least one digit; an incomplete exponent part is ignored
(JS takes the longest valid literal prefix). -/
def readExponent (cs : List Char) : Int :=
  match cs with
  | 'e' :: rest =>
    let (sg, r2) := readSign rest
    let ds := r2.takeWhile isDigitChar
    if ds.isEmpty then 0 else sg * digitsToNat ds
  | 'E' :: rest =>
    let (sg, r2) := readSign rest
    let ds := r2.takeWhile isDigitChar
    if ds.isEmpty then 0 else sg * digitsToNat ds
  | _ => 0

/-- Model of JS `parseFloat`: skip leading whitespace, read an optional
sign, then `Infinity` or a decimal literal (integer digits, optional
fraction, optional exponent); trailing junk is ignored; no digits at all
gives `NaN` (`none`). -/
def jsParseFloat (s : String) : Option JsNum :=
  let cs := s.data.dropWhile isWsChar
  let (sg, cs1) := readSign cs
  if ("Infinity".data).isPrefixOf cs1 then
    some (if sg = 1 then JsNum.inf else JsNum.negInf)
  else
    let intDs := cs1.takeWhile isDigitChar
    let afterInt := cs1.dropWhile isDigitChar
    let fracDs := match afterInt with
      | '.' :: rest => rest.takeWhile isDigitChar
      | _ => []
    let afterFrac := match afterInt with
      | '.' :: rest => rest.dropWhile isDigitChar
      | _ => afterInt
    if intDs.isEmpty && fracDs.isEmpty then none
    else some (mkJsFinite sg (digitsToNat (intDs ++ fracDs))
      (readExponent afterFrac - fracDs.length))

/-- Model of JS `parseInt(s, 10)`: skip leading whitespace, read an
optional sign and then decimal digits, stopping at the first non-digit;
no digits gives `NaN` (`none`). -/
def jsParseInt (s : String) : Option Int :=
  let cs := s.data.dropWhile isWsChar
  let (sg, cs1) := readSign cs
  let ds := cs1.takeWhile isDigitChar
  if ds.isEmpty then none else some (sg * digitsToNat ds)

/-- A JSON-ish value occurring in a tool call's `input` record
(`Record<string, unknown>` in the source); enough structure to express
JS truthiness and template-literal interpolation. -/
inductive JsValue where
  | str (s : String)
  | num (n : Int)
  | bool (b : Bool)
  | null
  deriving DecidableEq, Repr

/-- JS truthiness of a value. -/
def JsValue.truthy : JsValue → Bool
  | .str s => s ≠ ""
  | .num n => n ≠ 0
  | .bool b => b
  | .null => false

/-- JS template-literal rendering of a value. -/
def JsValue.render : JsValue → String
  | .str s => s
  | .num n => toString n
  | .bool b => if b then "true" else "false"
  | .null => "null"

/-- Truthiness of an optional record field (`undefined` is falsy). -/
def jsTruthy : Option JsValue → Bool
  | some v => v.truthy
  | none => false

/-- Template-literal rendering of an optional record field. -/
def renderOpt : Option JsValue → String
  | some v => v.render
  | none => "undefined"

/-- The fields of a tool call's `input` record that the display helpers in
`utils/toolDisplay.ts` read (`input.skill`, `input.subagent_type`);
`none` models an absent (`undefined`) property. -/
structure ToolInput where
  skill : Option JsValue
  subagent_type : Option JsValue
  deriving DecidableEq, Repr

/-- `type ToolStatus = "pending" | "running" | "success" | "error"` from
`utils/toolDisplay.ts`. -/
inductive ToolStatus where
  | pending
  | running
  | success
  | error
  deriving DecidableEq, Repr, Fintype

/-- The status string, as used for CSS class names. -/
def ToolStatus.toStr : ToolStatus → String
  | .pending => "pending"
  | .running => "running"
  | .success => "success"
  | .error => "error"

/-- `type SubagentStatus = "starting" | "running" | "thinking" |
"completed" | "interrupted" | "error"` from `utils/toolDisplay.ts`. -/
inductive SubagentStatus where
  | starting
  | running
  | thinking
  | completed
  | interrupted
  | error
  deriving DecidableEq, Repr, Fintype

/-- The status string, as used for CSS class names. -/
def SubagentStatus.toStr : SubagentStatus → String
  | .starting => "starting"
  | .running => "running"
  | .thinking => "thinking"
  | .completed => "completed"
  | .interrupted => "interrupted"
  | .error => "error"

/-- `getToolDisplayName` from `utils/toolDisplay.ts`. -/
def getToolDisplayName (name : String) (input : ToolInput) : String :=
  if name == "Skill" && jsTruthy input.skill then
    "Skill: " ++ renderOpt input.skill
  else if name == "Task" && jsTruthy input.subagent_type then
    "Task: " ++ renderOpt input.subagent_type
  else if jsStartsWith name "mcp__obsidian__" then
    underscoresToSpaces (jsRemoveFirst name "mcp__obsidian__")
  else name

/-- `getToolStatusText` from `utils/toolDisplay.ts`.  The JS guard
`isSubagent && subagentStatus` is truthy exactly when `isSubagent` holds
and `subagentStatus` is defined (every status string is nonempty). -/
def getToolStatusText (status : ToolStatus) (isSubagent : Bool)
    (subagentStatus : Option SubagentStatus) : String :=
  match isSubagent, subagentStatus with
  | true, some s =>
    match s with
    | .starting => "starting..."
    | .running => "running..."
    | .thinking => "thinking..."
    | .completed => "✓"
    | .interrupted => "⚠ interrupted"
    | .error => "✗"
  | _, _ =>
    match status with
    | .pending => "pending"
    | .running => "running..."
    | .success => "✓"
    | .error => "✗"

/-- `getToolStatusClass` from `utils/toolDisplay.ts`. -/
def getToolStatusClass (status : ToolStatus) (isSubagent : Bool)
    (subagentStatus : Option SubagentStatus) : String :=
  match isSubagent, subagentStatus with
  | true, some s => s.toStr
  | _, _ => status.toStr

/-- `isSubagentRunning` from `utils/toolDisplay.ts`. -/
def isSubagentRunning (subagentStatus : Option SubagentStatus) : Bool :=
  subagentStatus == some .starting || subagentStatus == some .running ||
    subagentStatus == some .thinking

/-- `isSubagentTool` from `utils/toolDisplay.ts`. -/
def isSubagentTool (name : String) : Bool :=
  name == "Task"

/-- `LogLevel` from `interfaces/ILogger.ts`. -/
inductive LogLevel where
  | debug
  | info
  | warn
  | error
  deriving DecidableEq, Repr, Fintype

/-- The `levels` array inside `createConsoleLogger`. -/
def logLevels : List LogLevel :=
  [.debug, .info, .warn, .error]

/-- The mutable state captured by the closure `createConsoleLogger`
returns: the current minimum level. -/
structure ConsoleLogger where
  currentLevel : LogLevel
  deriving DecidableEq, Repr

/-- `createConsoleLogger(minLevel)` from `interfaces/ILogger.ts`. -/
def createConsoleLogger (minLevel : LogLevel) : ConsoleLogger :=
  { currentLevel := minLevel }

/-- `createConsoleLogger()` with the default argument `minLevel = "info"`. -/
def createConsoleLoggerDefault : ConsoleLogger :=
  createConsoleLogger .info

/-- The `shouldLog` helper inside `createConsoleLogger`:
`levels.indexOf(level) >= levels.indexOf(currentLevel)`. -/
def shouldLog (currentLevel level : LogLevel) : Bool :=
  decide (logLevels.indexOf level ≥ logLevels.indexOf currentLevel)

/-- `setLevel` of the console logger. -/
def ConsoleLogger.setLevel (_lg : ConsoleLogger) (level : LogLevel) :
    ConsoleLogger :=
  { currentLevel := level }

/-- `getLevel` of the console logger. -/
def ConsoleLogger.getLevel (lg : ConsoleLogger) : LogLevel :=
  lg.currentLevel

/-- Whether a call at the given severity writes to the console: each of
`debug`/`info`/`warn`/`error` emits iff `shouldLog(severity)`. -/
def ConsoleLogger.emits (lg : ConsoleLogger) (severity : LogLevel) : Bool :=
  shouldLog lg.currentLevel severity

/-- Modelled from the spec: `McpServerConfig` (§3, "identifier, display
name, launch command, argument list, optional environment mapping,
enabled flag"); the `types.ts` module is not in the source tree, but the
field set is fixed by its uses in `SettingsTab.ts`.  The environment
mapping is an insertion-ordered string record, modelled as an
association list with unique keys. -/
structure McpServerConfig where
  id : String
  name : String
  command : String
  args : List String
  env : Option (List (String × String))
  enabled : Bool
  deriving DecidableEq, Repr

/-- Modelled from the spec: the plugin settings record (§6 "Session
policy configuration"); `types.ts` is not in the source tree, but the
field set is fixed by the spec and by the uses in `SettingsTab.ts`. -/
structure PluginSettings where
  apiKey : String
  model : String
  autoApproveVaultReads : Bool
  autoApproveVaultWrites : Bool
  requireBashApproval : Bool
  alwaysAllowedTools : List String
  maxBudgetPerSession : JsNum
  maxTurns : Int
  mcpServers : List McpServerConfig
  deriving DecidableEq, Repr

/-- The "Max budget per session" `onChange` handler in
`ClaudeCodeSettingTab.display`: parse the text, and overwrite the
setting only when the parse result is a number strictly greater than
zero. -/
def onBudgetChange (s : PluginSettings) (value : String) : PluginSettings :=
  match jsParseFloat value with
  | some parsed =>
    if parsed.pos then { s with maxBudgetPerSession := parsed } else s
  | none => s

/-- The "Max turns per query" `onChange` handler in
`ClaudeCodeSettingTab.display`: parse the text as a base-10 integer, and
overwrite the setting only when the result is strictly greater than
zero. -/
def onMaxTurnsChange (s : PluginSettings) (value : String) : PluginSettings :=
  match jsParseInt value with
  | some parsed =>
    if 0 < parsed then { s with maxTurns := parsed } else s
  | none => s

/-- One user edit of the two numeric agent settings. -/
inductive SettingsEdit where
  | budget (value : String)
  | turns (value : String)

/-- Apply one edit event through the corresponding `onChange` handler. -/
def applySettingsEdit (s : PluginSettings) : SettingsEdit → PluginSettings
  | .budget v => onBudgetChange s v
  | .turns v => onMaxTurnsChange s v

/-- The remove-button handler of the "Always Allowed Tools" chips in
`ClaudeCodeSettingTab.display`: replace the list by the entries not equal
to the removed tool. -/
def removeAlwaysAllowedTool (s : PluginSettings) (tool : String) :
    PluginSettings :=
  { s with alwaysAllowedTools :=
      s.alwaysAllowedTools.filter (fun t => t ≠ tool) }

/-- JS object insertion: `env[key] = value` keeps the original position
of an existing key and appends a fresh key at the end. -/
def recordInsert (m : List (String × String)) (k v : String) :
    List (String × String) :=
  if m.any (fun p => p.1 = k) then
    m.map (fun p => if p.1 = k then (k, v) else p)
  else m ++ [(k, v)]

/-- The key accepted from one environment textarea line in
`McpServerModal.save`: the first `=` must not be at position 0 and the
trimmed text before it must be nonempty. -/
def envLineKey (line : String) : Option String :=
  match line.data.findIdx? (· = '=') with
  | some eqIndex =>
    if 0 < eqIndex then
      let key := jsTrim (String.mk (line.data.take eqIndex))
      if key ≠ "" then some key else none
    else none
  | none => none

/-- The value taken from one environment textarea line: the trimmed text
after the first `=`. -/
def envLineValue (line : String) : String :=
  match line.data.findIdx? (· = '=') with
  | some eqIndex => jsTrim (String.mk (line.data.drop (eqIndex + 1)))
  | none => ""

/-- One iteration of the environment-parsing loop of
`McpServerModal.save`: insert the `KEY=value` pair when the line's first
`=` is preceded by a nonempty key, else keep the record unchanged. -/
def envStep (env : List (String × String)) (line : String) :
    List (String × String) :=
  match envLineKey line with
  | some key => recordInsert env key (envLineValue line)
  | none => env

/-- The environment-parsing loop of `McpServerModal.save`: split the
textarea into lines, keep the non-blank ones, and insert `KEY=value`
pairs for every line whose first `=` is preceded by a nonempty key. -/
def parseEnv (text : String) : List (String × String) :=
  ((jsSplitChar text '\n').filter (fun l => jsTrim l ≠ "")).foldl envStep []

/-- The form state of `McpServerModal` at the moment `save` runs:
the server being edited (`none` when adding) and the four input
values. -/
structure McpModalState where
  server : Option McpServerConfig
  nameValue : String
  commandValue : String
  argsValue : String
  envValue : String
  deriving DecidableEq, Repr

/-- `McpServerModal.save`, with `Date.now()` supplied as `now`.
Returns `none` when validation fails (a notice is shown, `onSave` is not
invoked and the modal stays open), and `some config` for the
configuration passed to `onSave` otherwise. -/
def mcpServerModalSave (m : McpModalState) (now : Nat) :
    Option McpServerConfig :=
  let name := jsTrim m.nameValue
  let command := jsTrim m.commandValue
  let argsStr := jsTrim m.argsValue
  if name = "" then none
  else if command = "" then none
  else
    let args := if argsStr ≠ "" then jsSplitWs argsStr else []
    let env := parseEnv m.envValue
    some
      { id :=
          match m.server with
          | some srv => if srv.id ≠ "" then srv.id else "mcp-" ++ toString now
          | none => "mcp-" ++ toString now
        name := name
        command := command
        args := args
        env := if env.length > 0 then some env else none
        enabled :=
          match m.server with
          | some srv => srv.enabled
          | none => true }

/-- Modelled from the spec: `SubagentProgress` (§3, "status, last status
message, start timestamp"); `types.ts` is not in the source tree, but
the field set is fixed by the uses in `ToolCallDisplay.ts`. -/
structure SubagentProgress where
  message : Option String
  startTime : Option Nat
  deriving DecidableEq, Repr

/-- Modelled from the spec: the `ToolCall` record (§3); `types.ts` is not
in the source tree, but the field set is fixed by the spec and by the
uses in `ToolCallDisplay.ts`. -/
structure ToolCall where
  id : String
  name : String
  input : ToolInput
  status : ToolStatus
  output : Option String
  error : Option String
  startTime : Nat
  endTime : Option Nat
  isSubagent : Bool
  subagentStatus : Option SubagentStatus
  subagentProgress : Option SubagentProgress
  deriving DecidableEq, Repr

/-- A `Partial<ToolCall>`: each field is present (`some`) or absent. -/
structure ToolCallUpdate where
  id : Option String := none
  name : Option String := none
  input : Option ToolInput := none
  status : Option ToolStatus := none
  output : Option (Option String) := none
  error : Option (Option String) := none
  startTime : Option Nat := none
  endTime : Option (Option Nat) := none
  isSubagent : Option Bool := none
  subagentStatus : Option (Option SubagentStatus) := none
  subagentProgress : Option (Option SubagentProgress) := none
  deriving DecidableEq, Repr

/-- `ToolCallDisplay.update`: `Object.assign(this.toolCall, updates)` —
every field present in the partial update overwrites the stored field,
then the display re-renders. -/
def updateToolCall (t : ToolCall) (u : ToolCallUpdate) : ToolCall :=
  { id := u.id.getD t.id
    name := u.name.getD t.name
    input := u.input.getD t.input
    status := u.status.getD t.status
    output := u.output.getD t.output
    error := u.error.getD t.error
    startTime := u.startTime.getD t.startTime
    endTime := u.endTime.getD t.endTime
    isSubagent := u.isSubagent.getD t.isSubagent
    subagentStatus := u.subagentStatus.getD t.subagentStatus
    subagentProgress := u.subagentProgress.getD t.subagentProgress }

/-- The transition discipline of the spec: `pending → running →
{success, error}`. -/
def allowedStep : ToolStatus → ToolStatus → Bool
  | .pending, .running => true
  | .running, .success => true
  | .running, .error => true
  | _, _ => false

/-- A sequence of partial updates whose supplied statuses follow the
spec's transition discipline from the given starting status. -/
inductive UpdatesOK : ToolStatus → List ToolCallUpdate → Prop where
  | nil (s : ToolStatus) : UpdatesOK s []
  | skip (s : ToolStatus) (u : ToolCallUpdate) (us : List ToolCallUpdate)
      (hu : u.status = none) (hrest : UpdatesOK s us) :
      UpdatesOK s (u :: us)
  | step (s s' : ToolStatus) (u : ToolCallUpdate)
      (us : List ToolCallUpdate) (hu : u.status = some s')
      (hstep : allowedStep s s' = true) (hrest : UpdatesOK s' us) :
      UpdatesOK s (u :: us)

/-- A markdown file of the vault, as seen by
`AutocompletePopup.getFileSuggestions` (`TFile`: `path`, `basename`,
optional parent folder path). -/
structure MdFile where
  path : String
  basename : String
  parentPath : Option String
  deriving DecidableEq, Repr

/-- A `Suggestion` as built by `getFileSuggestions`. -/
structure Suggestion where
  stype : String
  value : String
  label : String
  description : String
  icon : String
  deriving DecidableEq, Repr

/-- `AutocompletePopup.getFileSuggestions`: lower-case the query, keep
the markdown files whose lower-cased path or basename contains it, cap
at 10, and map each to a file suggestion. -/
def getFileSuggestions (files : List MdFile) (query : String) :
    List Suggestion :=
  let q := jsToLower query
  ((files.filter (fun f =>
      jsIncludes (jsToLower f.path) q || jsIncludes (jsToLower f.basename) q)).take
    10).map (fun f =>
      { stype := "file"
        value := f.path
        label := f.basename
        description := f.parentPath.getD ""
        icon := "file-text" })

/-- The observable state of `AutocompletePopup`: the suggestion array,
the selected index, the `visible` flag, and whether a popup container
element is currently attached (`containerEl !== null`). -/
structure PopupState where
  suggestions : List Suggestion
  selectedIndex : Nat
  visible : Bool
  containerAttached : Bool
  deriving DecidableEq, Repr

/-- `AutocompletePopup.hide`: remove the container element when present
and clear the `visible` flag. -/
def hidePopup (st : PopupState) : PopupState :=
  { st with containerAttached := false, visible := false }

/-- The state effects of `AutocompletePopup.render`: its first statement
is `this.hide()` (which removes any container and clears the `visible`
flag), after which it builds a fresh container element and appends it to
the document body.  The rest of `render` is DOM construction and
positioning with no further effect on these fields — in particular,
nothing in `render` sets `visible` back to true. -/
def renderPopup (st : PopupState) : PopupState :=
  { hidePopup st with containerAttached := true }

/-- `AutocompletePopup.show`, with the suggestion list already computed
by `getSuggestions` (the file branch is `getFileSuggestions`): store the
suggestions; when empty, hide and return; otherwise set the selection to
0, set `visible` to true, and call `render` — whose initial `hide()`
resets `visible` to false again. -/
def showPopup (st : PopupState) (suggs : List Suggestion) : PopupState :=
  if suggs.length = 0 then hidePopup { st with suggestions := suggs }
  else renderPopup
    { st with suggestions := suggs, selectedIndex := 0, visible := true }

/-! ## Theorems -/

/-- C2: a tool call is classified as a subagent (delegation) call exactly
when its name is the delegation tool's name "Task"; every other name,
including "Skill" and every `mcp__`-prefixed name, is not a subagent
tool. -/
theorem isSubagentTool_spec :
    (∀ n : String, isSubagentTool n = true ↔ n = "Task") ∧
    isSubagentTool "Skill" = false ∧
    (∀ n : String, jsStartsWith n "mcp__" = true → isSubagentTool n = false) := by
  refine ⟨fun n => ?_, by decide, fun n h => ?_⟩
  · simp [isSubagentTool]
  · cases hn : (n == "Task") with
    | false => simp [isSubagentTool, hn]
    | true =>
      exfalso
      rw [show n = "Task" from by simpa using hn] at h
      exact absurd h (by decide)

/-- Witness for C2: the `mcp__`-prefixed name "mcp__obsidian__get_file"
is not a subagent tool. -/
theorem isSubagentTool_spec_witness :
    isSubagentTool "mcp__obsidian__get_file" = false :=
  isSubagentTool_spec.2.2 "mcp__obsidian__get_file" (by decide)

/-- C3: `isSubagentRunning` returns true exactly on the three
non-terminal subagent states (starting, running, thinking) and false on
every terminal state (completed, interrupted, error) and on an undefined
status. -/
theorem isSubagentRunning_spec :
    (∀ s : Option SubagentStatus,
      isSubagentRunning s = true ↔
        (s = some .starting ∨ s = some .running ∨ s = some .thinking)) ∧
    isSubagentRunning none = false ∧
    isSubagentRunning (some .completed) = false ∧
    isSubagentRunning (some .interrupted) = false ∧
    isSubagentRunning (some .error) = false := by
  refine ⟨fun s => ?_, by decide, by decide, by decide, by decide⟩
  cases s with
  | none => simp [isSubagentRunning]
  | some v => cases v <;> simp [isSubagentRunning]

/-- C4: the console logger emits a message at severity `S` under current
level `L` exactly when the index of `S` in `[debug, info, warn, error]`
is at least the index of `L`; `getLevel` returns the level most recently
set, `createConsoleLogger` starts at the supplied level, and the default
minimum level is "info". -/
theorem consoleLogger_spec :
    (∀ (lg : ConsoleLogger) (L S : LogLevel),
      (lg.setLevel L).emits S = true ↔
        logLevels.indexOf S ≥ logLevels.indexOf L) ∧
    (∀ (lg : ConsoleLogger) (L : LogLevel), (lg.setLevel L).getLevel = L) ∧
    (∀ L : LogLevel, (createConsoleLogger L).getLevel = L) ∧
    createConsoleLoggerDefault.getLevel = .info := by
  refine ⟨fun lg L S => ?_, fun lg L => rfl, fun L => rfl, rfl⟩
  simp [ConsoleLogger.emits, ConsoleLogger.setLevel, shouldLog]

/-- C9: the rendered status text and CSS class are determined solely by
the subagent status whenever the call is a subagent with a defined
subagent status (independently of the tool status), and solely by the
tool status otherwise. -/
theorem toolStatus_precedence_spec :
    (∀ (s s' : ToolStatus) (ss : SubagentStatus),
      getToolStatusText s true (some ss) = getToolStatusText s' true (some ss) ∧
      getToolStatusClass s true (some ss) = ss.toStr) ∧
    (∀ (s : ToolStatus) (o : Option SubagentStatus),
      getToolStatusText s false o = getToolStatusText s false none ∧
      getToolStatusClass s false o = s.toStr) ∧
    (∀ (s : ToolStatus) (b : Bool),
      getToolStatusText s b none = getToolStatusText s false none ∧
      getToolStatusClass s b none = s.toStr) := by
  refine ⟨fun s s' ss => ?_, fun s o => ?_, fun s b => ?_⟩
  · revert s s' ss; decide
  · revert s o; decide
  · revert s b; decide

/-- Removing the first occurrence of a nonempty pattern that the string
starts with drops exactly the pattern's length. -/
theorem jsRemoveFirstAux_of_isPrefixOf (pat l : List Char) (hne : pat ≠ [])
    (h : pat.isPrefixOf l = true) :
    jsRemoveFirstAux pat l = l.drop pat.length := by
  cases l with
  | nil =>
    cases pat with
    | nil => exact absurd rfl hne
    | cons a as => simp [List.isPrefixOf] at h
  | cons c rest => simp [jsRemoveFirstAux, h]

/-- C8: tool display names — an `mcp__obsidian__` name is shown with the
prefix removed and remaining underscores as spaces; "Skill" with a truthy
`input.skill` is shown as `Skill: <skill>`; "Task" with a truthy
`input.subagent_type` is shown as `Task: <subagent_type>`; every other
name is returned unchanged. -/
theorem getToolDisplayName_spec :
    ∀ (name : String) (input : ToolInput),
    (jsStartsWith name "mcp__obsidian__" = true →
      getToolDisplayName name input =
        underscoresToSpaces
          (String.mk (name.data.drop ("mcp__obsidian__".data.length)))) ∧
    (name = "Skill" → jsTruthy input.skill = true →
      getToolDisplayName name input = "Skill: " ++ renderOpt input.skill) ∧
    (name = "Task" → jsTruthy input.subagent_type = true →
      getToolDisplayName name input = "Task: " ++ renderOpt input.subagent_type) ∧
    (jsStartsWith name "mcp__obsidian__" = false →
      (name = "Skill" → jsTruthy input.skill = false) →
      (name = "Task" → jsTruthy input.subagent_type = false) →
      getToolDisplayName name input = name) := by
  intro name input
  refine ⟨fun hpre => ?_, fun hn ht => ?_, fun hn ht => ?_, fun hpre hsk hta => ?_⟩
  · have hskill : (name == "Skill") = false := by
      apply beq_eq_false_iff_ne.2
      intro heq
      rw [heq] at hpre
      exact absurd hpre (by decide)
    have htask : (name == "Task") = false := by
      apply beq_eq_false_iff_ne.2
      intro heq
      rw [heq] at hpre
      exact absurd hpre (by decide)
    have hrem : jsRemoveFirst name "mcp__obsidian__" =
        String.mk (name.data.drop ("mcp__obsidian__".data.length)) := by
      unfold jsRemoveFirst
      rw [jsRemoveFirstAux_of_isPrefixOf _ _ (by decide) hpre]
    simp [getToolDisplayName, hskill, htask, hpre, hrem]
  · subst hn
    simp [getToolDisplayName, ht]
  · subst hn
    simp [getToolDisplayName, ht]
  · have hskill : (name == "Skill" && jsTruthy input.skill) = false := by
      cases hn : (name == "Skill") with
      | false => simp [hn]
      | true => simp [hn, hsk (by simpa using hn)]
    have htask : (name == "Task" && jsTruthy input.subagent_type) = false := by
      cases hn : (name == "Task") with
      | false => simp [hn]
      | true => simp [hn, hta (by simpa using hn)]
    simp [getToolDisplayName, hskill, htask, hpre]

/-- Witness for C8: concrete evaluations through the theorem — an
obsidian MCP tool name, the Skill and Task specials, and an unchanged
plain name. -/
theorem getToolDisplayName_spec_witness :
    getToolDisplayName "mcp__obsidian__get_file" ⟨none, none⟩ =
      underscoresToSpaces
        (String.mk ("mcp__obsidian__get_file".data.drop
          ("mcp__obsidian__".data.length))) ∧
    getToolDisplayName "Skill" ⟨some (.str "pdf"), none⟩ =
      "Skill: " ++ renderOpt (some (.str "pdf")) ∧
    getToolDisplayName "Task" ⟨none, some (.str "explore")⟩ =
      "Task: " ++ renderOpt (some (.str "explore")) ∧
    getToolDisplayName "mcp__github__search" ⟨none, none⟩ =
      "mcp__github__search" :=
  ⟨(getToolDisplayName_spec "mcp__obsidian__get_file" ⟨none, none⟩).1 (by decide),
   (getToolDisplayName_spec "Skill" ⟨some (.str "pdf"), none⟩).2.1 rfl (by decide),
   (getToolDisplayName_spec "Task" ⟨none, some (.str "explore")⟩).2.2.1 rfl (by decide),
   (getToolDisplayName_spec "mcp__github__search" ⟨none, none⟩).2.2.2 (by decide)
     (by intro h; exact absurd h (by decide)) (by intro h; exact absurd h (by decide))⟩

/-- The status evolution of a sequence of display updates depends only on
the status fields: folding `updateToolCall` and folding the status merge
agree. -/
theorem foldl_updateToolCall_status (us : List ToolCallUpdate) (t : ToolCall) :
    (us.foldl updateToolCall t).status =
      us.foldl (fun st u => u.status.getD st) t.status := by
  induction us generalizing t with
  | nil => rfl
  | cons u us ih => simpa [updateToolCall] using ih (updateToolCall t u)

/-- Under the spec's transition discipline, a terminal status admits no
further status-bearing update, so the folded status is unchanged. -/
theorem updatesOK_terminal_fixed (s : ToolStatus) (us : List ToolCallUpdate)
    (h : UpdatesOK s us) (hterm : s = .success ∨ s = .error) :
    us.foldl (fun st u => u.status.getD st) s = s := by
  induction h with
  | nil => rfl
  | skip s u us hu hrest ih => simpa [hu] using ih hterm
  | step s s' u us hu hstep hrest ih =>
    exfalso
    rcases hterm with rfl | rfl <;> cases s' <;> simp [allowedStep] at hstep

/-- C1 counterexample: `ToolCallDisplay.update` applied to a completed
(success) tool call with a partial update carrying status "pending"
returns the call to pending — a transition out of success. -/
theorem toolCall_update_reopens_completed :
    (updateToolCall
      { id := "t1", name := "Read", input := ⟨none, none⟩,
        status := .success, output := some "ok", error := none,
        startTime := 0, endTime := some 5, isSubagent := false,
        subagentStatus := none, subagentProgress := none }
      { status := some .pending }).status = .pending ∧
    ToolStatus.pending ≠ ToolStatus.success := by
  exact ⟨rfl, by decide⟩

/-- C1 amended: `ToolCallDisplay.update` merges field-by-field — the
resulting status is the update's status when one is supplied and the
previous status otherwise, with no transition discipline of its own; when
every supplied status in the update sequence follows the spec's
pending → running → {success, error} discipline, a completed (success or
error) call keeps its status under every such sequence of updates. -/
theorem toolCall_update_spec :
    (∀ (t : ToolCall) (u : ToolCallUpdate),
      (updateToolCall t u).status = u.status.getD t.status) ∧
    (∀ (t : ToolCall) (us : List ToolCallUpdate),
      UpdatesOK t.status us → (t.status = .success ∨ t.status = .error) →
      (us.foldl updateToolCall t).status = t.status) := by
  refine ⟨fun t u => rfl, fun t us h hterm => ?_⟩
  rw [foldl_updateToolCall_status]
  exact updatesOK_terminal_fixed t.status us h hterm

/-- Witness for C1's amended theorem: a successful call receives two
status-free partial updates and keeps its success status. -/
theorem toolCall_update_spec_witness :
    ((([{ output := some (some "done") },
        { endTime := some (some 9) }] : List ToolCallUpdate).foldl updateToolCall
      { id := "t1", name := "Read", input := ⟨none, none⟩,
        status := .success, output := none, error := none,
        startTime := 0, endTime := none, isSubagent := false,
        subagentStatus := none, subagentProgress := none }).status = .success) :=
  toolCall_update_spec.2
    { id := "t1", name := "Read", input := ⟨none, none⟩,
      status := .success, output := none, error := none,
      startTime := 0, endTime := none, isSubagent := false,
      subagentStatus := none, subagentProgress := none }
    [{ output := some (some "done") }, { endTime := some (some 9) }]
    (UpdatesOK.skip _ _ _ rfl (UpdatesOK.skip _ _ _ rfl (UpdatesOK.nil _)))
    (Or.inl rfl)

/-- The budget handler never touches `maxTurns` and keeps
`maxBudgetPerSession` positive when it was. -/
theorem onBudgetChange_preserves (s : PluginSettings) (v : String)
    (hb : s.maxBudgetPerSession.pos = true) :
    (onBudgetChange s v).maxBudgetPerSession.pos = true ∧
    (onBudgetChange s v).maxTurns = s.maxTurns := by
  unfold onBudgetChange
  cases hv : jsParseFloat v with
  | none => exact ⟨hb, rfl⟩
  | some p =>
    by_cases hp : p.pos
    · simp [hp]
    · simp [hp, hb]

/-- The max-turns handler never touches `maxBudgetPerSession` and keeps
`maxTurns` positive when it was. -/
theorem onMaxTurnsChange_preserves (s : PluginSettings) (v : String)
    (ht : 0 < s.maxTurns) :
    0 < (onMaxTurnsChange s v).maxTurns ∧
    (onMaxTurnsChange s v).maxBudgetPerSession = s.maxBudgetPerSession := by
  unfold onMaxTurnsChange
  cases hv : jsParseInt v with
  | none => exact ⟨ht, rfl⟩
  | some n =>
    by_cases hn : 0 < n
    · simp [hn]
    · simp [hn, ht]

/-- C5: the numeric agent settings stay positive under every sequence of
edits — each handler overwrites its setting only when the parsed input
is strictly positive and leaves the whole settings record unchanged on
any other input. -/
theorem numericSettings_positive_invariant :
    (∀ (s : PluginSettings) (v : String) (p : JsNum),
      jsParseFloat v = some p → p.pos = true →
      onBudgetChange s v = { s with maxBudgetPerSession := p }) ∧
    (∀ (s : PluginSettings) (v : String),
      (∀ p, jsParseFloat v = some p → p.pos = false) →
      onBudgetChange s v = s) ∧
    (∀ (s : PluginSettings) (v : String) (n : Int),
      jsParseInt v = some n → 0 < n →
      onMaxTurnsChange s v = { s with maxTurns := n }) ∧
    (∀ (s : PluginSettings) (v : String),
      (∀ n, jsParseInt v = some n → ¬ 0 < n) →
      onMaxTurnsChange s v = s) ∧
    (∀ (s : PluginSettings) (edits : List SettingsEdit),
      s.maxBudgetPerSession.pos = true → 0 < s.maxTurns →
      (edits.foldl applySettingsEdit s).maxBudgetPerSession.pos = true ∧
      0 < (edits.foldl applySettingsEdit s).maxTurns) := by
  refine ⟨fun s v p hv hp => ?_, fun s v h => ?_, fun s v n hv hn => ?_,
    fun s v h => ?_, fun s edits hb ht => ?_⟩
  · unfold onBudgetChange
    rw [hv]
    simp [hp]
  · unfold onBudgetChange
    cases hv : jsParseFloat v with
    | none => rfl
    | some p => simp [h p hv]
  · unfold onMaxTurnsChange
    rw [hv]
    simp [hn]
  · unfold onMaxTurnsChange
    cases hv : jsParseInt v with
    | none => rfl
    | some n => simp [h n hv]
  · induction edits generalizing s with
    | nil => exact ⟨hb, ht⟩
    | cons e es ih =>
      cases e with
      | budget v =>
        have h1 := onBudgetChange_preserves s v hb
        exact ih (onBudgetChange s v) h1.1 (h1.2 ▸ ht)
      | turns v =>
        have h1 := onMaxTurnsChange_preserves s v ht
        exact ih (onMaxTurnsChange s v) (h1.2 ▸ hb) h1.1

/-- Witness for C5: concrete edits — a valid budget "2.5" overwrites, a
non-numeric budget is ignored, a valid turn count "50" overwrites, "0"
is ignored, and a mixed edit sequence keeps both settings positive. -/
theorem numericSettings_positive_invariant_witness :
    onBudgetChange
      { apiKey := "", model := "sonnet", autoApproveVaultReads := true,
        autoApproveVaultWrites := false, requireBashApproval := true,
        alwaysAllowedTools := ["Read"],
        maxBudgetPerSession := .finite 10 1, maxTurns := 50,
        mcpServers := [] } "2.5" =
      { apiKey := "", model := "sonnet", autoApproveVaultReads := true,
        autoApproveVaultWrites := false, requireBashApproval := true,
        alwaysAllowedTools := ["Read"],
        maxBudgetPerSession := .finite 25 10, maxTurns := 50,
        mcpServers := [] } ∧
    onBudgetChange
      { apiKey := "", model := "sonnet", autoApproveVaultReads := true,
        autoApproveVaultWrites := false, requireBashApproval := true,
        alwaysAllowedTools := ["Read"],
        maxBudgetPerSession := .finite 10 1, maxTurns := 50,
        mcpServers := [] } "abc" =
      { apiKey := "", model := "sonnet", autoApproveVaultReads := true,
        autoApproveVaultWrites := false, requireBashApproval := true,
        alwaysAllowedTools := ["Read"],
        maxBudgetPerSession := .finite 10 1, maxTurns := 50,
        mcpServers := [] } ∧
    onMaxTurnsChange
      { apiKey := "", model := "sonnet", autoApproveVaultReads := true,
        autoApproveVaultWrites := false, requireBashApproval := true,
        alwaysAllowedTools := ["Read"],
        maxBudgetPerSession := .finite 10 1, maxTurns := 50,
        mcpServers := [] } "0" =
      { apiKey := "", model := "sonnet", autoApproveVaultReads := true,
        autoApproveVaultWrites := false, requireBashApproval := true,
        alwaysAllowedTools := ["Read"],
        maxBudgetPerSession := .finite 10 1, maxTurns := 50,
        mcpServers := [] } ∧
    (((([.budget "abc", .turns "-3", .budget "2.5", .turns "0"] :
        List SettingsEdit).foldl applySettingsEdit
      { apiKey := "", model := "sonnet", autoApproveVaultReads := true,
        autoApproveVaultWrites := false, requireBashApproval := true,
        alwaysAllowedTools := ["Read"],
        maxBudgetPerSession := .finite 10 1, maxTurns := 50,
        mcpServers := [] }).maxBudgetPerSession.pos = true) ∧
      0 < (([.budget "abc", .turns "-3", .budget "2.5", .turns "0"] :
        List SettingsEdit).foldl applySettingsEdit
      { apiKey := "", model := "sonnet", autoApproveVaultReads := true,
        autoApproveVaultWrites := false, requireBashApproval := true,
        alwaysAllowedTools := ["Read"],
        maxBudgetPerSession := .finite 10 1, maxTurns := 50,
        mcpServers := [] }).maxTurns) :=
  ⟨numericSettings_positive_invariant.1 _ "2.5" (.finite 25 10) (by decide)
      (by decide),
   numericSettings_positive_invariant.2.1 _ "abc"
      (by intro p hp
          rw [show jsParseFloat "abc" = none from by decide] at hp
          exact Option.noConfusion hp),
   numericSettings_positive_invariant.2.2.2.1 _ "0"
      (by intro n hn
          rw [show jsParseInt "0" = some 0 from by decide] at hn
          cases hn
          decide),
   numericSettings_positive_invariant.2.2.2.2 _
      [.budget "abc", .turns "-3", .budget "2.5", .turns "0"]
      (by decide) (by decide)⟩

/-- C7: removing a tool from the always-allowed set removes every
occurrence of exactly that tool, keeps all other entries (with their
multiplicities) in their original relative order, and modifies no other
settings field. -/
theorem removeAlwaysAllowedTool_spec :
    ∀ (s : PluginSettings) (t : String), t ∈ s.alwaysAllowedTools →
    t ∉ (removeAlwaysAllowedTool s t).alwaysAllowedTools ∧
    (removeAlwaysAllowedTool s t).alwaysAllowedTools.Sublist
      s.alwaysAllowedTools ∧
    (∀ x, x ≠ t →
      (removeAlwaysAllowedTool s t).alwaysAllowedTools.count x =
        s.alwaysAllowedTools.count x) ∧
    (∀ x, x ∈ (removeAlwaysAllowedTool s t).alwaysAllowedTools ↔
      (x ∈ s.alwaysAllowedTools ∧ x ≠ t)) ∧
    (removeAlwaysAllowedTool s t).apiKey = s.apiKey ∧
    (removeAlwaysAllowedTool s t).model = s.model ∧
    (removeAlwaysAllowedTool s t).autoApproveVaultReads =
      s.autoApproveVaultReads ∧
    (removeAlwaysAllowedTool s t).autoApproveVaultWrites =
      s.autoApproveVaultWrites ∧
    (removeAlwaysAllowedTool s t).requireBashApproval =
      s.requireBashApproval ∧
    (removeAlwaysAllowedTool s t).maxBudgetPerSession =
      s.maxBudgetPerSession ∧
    (removeAlwaysAllowedTool s t).maxTurns = s.maxTurns ∧
    (removeAlwaysAllowedTool s t).mcpServers = s.mcpServers := by
  intro s t ht
  refine ⟨?_, ?_, fun x hx => ?_, fun x => ?_, rfl, rfl, rfl, rfl, rfl, rfl,
    rfl, rfl⟩
  · simp [removeAlwaysAllowedTool]
  · exact List.filter_sublist _
  · simp [removeAlwaysAllowedTool, List.count_filter, hx]
  · simp [removeAlwaysAllowedTool]

/-- Witness for C7: removing "Bash" from a concrete settings record. -/
theorem removeAlwaysAllowedTool_spec_witness :
    "Bash" ∉ (removeAlwaysAllowedTool
      { apiKey := "k", model := "opus", autoApproveVaultReads := false,
        autoApproveVaultWrites := false, requireBashApproval := true,
        alwaysAllowedTools := ["Read", "Bash", "Grep", "Bash"],
        maxBudgetPerSession := .finite 10 1, maxTurns := 50,
        mcpServers := [] } "Bash").alwaysAllowedTools :=
  (removeAlwaysAllowedTool_spec
    { apiKey := "k", model := "opus", autoApproveVaultReads := false,
      autoApproveVaultWrites := false, requireBashApproval := true,
      alwaysAllowedTools := ["Read", "Bash", "Grep", "Bash"],
      maxBudgetPerSession := .finite 10 1, maxTurns := 50,
      mcpServers := [] } "Bash" (by decide)).1

/-- Supporting development for the autocomplete popup: file suggestions
are capped at 10 and each comes from a vault markdown file whose
lower-cased path or basename contains the lower-cased query; `show`
stores the suggestion list, leaves a container attached exactly when it
is nonempty, and sets the selection to 0 when it is nonempty. -/
theorem getFileSuggestions_sound :
    ∀ (files : List MdFile) (query : String) (st : PopupState),
    (getFileSuggestions files query).length ≤ 10 ∧
    (∀ sug ∈ getFileSuggestions files query, ∃ f ∈ files,
      sug.stype = "file" ∧ sug.value = f.path ∧ sug.label = f.basename ∧
      (jsIncludes (jsToLower f.path) (jsToLower query) = true ∨
        jsIncludes (jsToLower f.basename) (jsToLower query) = true)) ∧
    ((showPopup st (getFileSuggestions files query)).containerAttached = true ↔
      getFileSuggestions files query ≠ []) ∧
    (getFileSuggestions files query ≠ [] →
      (showPopup st (getFileSuggestions files query)).selectedIndex = 0) ∧
    (showPopup st (getFileSuggestions files query)).suggestions =
      getFileSuggestions files query := by
  intro files query st
  refine ⟨?_, fun sug hsug => ?_, ?_, fun hne => ?_, ?_⟩
  · unfold getFileSuggestions
    simp
  · unfold getFileSuggestions at hsug
    rcases List.mem_map.1 hsug with ⟨f, hf, hfe⟩
    have hf2 := List.mem_of_mem_take hf
    have hmem := List.mem_filter.1 hf2
    refine ⟨f, hmem.1, ?_, ?_, ?_, ?_⟩
    · rw [← hfe]
    · rw [← hfe]
    · rw [← hfe]
    · simpa using hmem.2
  · unfold showPopup
    by_cases h : (getFileSuggestions files query).length = 0
    · simp [h, hidePopup, List.length_eq_zero.1 h]
    · simp [h, renderPopup, hidePopup]
      exact fun he => h (by rw [he]; rfl)
  · unfold showPopup
    have h : ¬ (getFileSuggestions files query).length = 0 := by
      intro h0
      exact hne (List.length_eq_zero.1 h0)
    simp [h, renderPopup, hidePopup]
  · unfold showPopup
    by_cases h : (getFileSuggestions files query).length = 0
    · simp [h, hidePopup]
    · simp [h, renderPopup, hidePopup]

/-- C10: the popup's `visible` flag is false after every `show()`.
`show` deliberately sets `visible = true` on a nonempty suggestion list
and then calls `render`, whose first statement `hide()` unconditionally
resets the flag — and nothing in `render` sets it back — so `isVisible`
reports false and the flag-gated `handleKeydown` can never fire, even
when suggestions were produced and their container element was attached.
The claim's "visible iff at least one suggestion" is the class's evident
intent (otherwise the `visible = true` assignment and the `isVisible` /
`handleKeydown` gates are dead code); the unconditional reset is the
slip.  Evaluated concretely at a vault with one matching file: one
suggestion is produced, the selection is 0 and the container is
attached, yet `visible` is false. -/
theorem autocomplete_show_visible_bug :
    (∀ (st : PopupState) (suggs : List Suggestion),
      (showPopup st suggs).visible = false) ∧
    getFileSuggestions [⟨"Notes/Foo.md", "Foo", some "Notes"⟩] "foo" ≠ [] ∧
    (showPopup ⟨[], 0, false, false⟩
      (getFileSuggestions [⟨"Notes/Foo.md", "Foo", some "Notes"⟩]
        "foo")).visible = false ∧
    (showPopup ⟨[], 0, false, false⟩
      (getFileSuggestions [⟨"Notes/Foo.md", "Foo", some "Notes"⟩]
        "foo")).selectedIndex = 0 ∧
    (showPopup ⟨[], 0, false, false⟩
      (getFileSuggestions [⟨"Notes/Foo.md", "Foo", some "Notes"⟩]
        "foo")).containerAttached = true := by
  refine ⟨fun st suggs => ?_, by decide, by decide, by decide, by decide⟩
  unfold showPopup
  by_cases h : suggs.length = 0
  · simp [h, hidePopup]
  · simp [h, renderPopup, hidePopup]

/-- A successful `findIdx?` means some element satisfies the predicate. -/
theorem exists_of_findIdx?_eq_some {α : Type} {p : α → Bool} {l : List α}
    {i : Nat} (h : l.findIdx? p = some i) : ∃ x ∈ l, p x = true := by
  induction l generalizing i with
  | nil => simp [List.findIdx?] at h
  | cons a as ih =>
    rw [List.findIdx?_cons] at h
    by_cases hp : p a
    · exact ⟨a, List.mem_cons_self a as, hp⟩
    · simp [hp] at h
      rcases h with ⟨j, hj, rfl⟩
      rcases ih hj with ⟨x, hx, hpx⟩
      exact ⟨x, List.mem_cons_of_mem a hx, hpx⟩

/-- A string that trims to empty consists of whitespace only. -/
theorem all_ws_of_jsTrim_eq_empty (l : String) (h : jsTrim l = "") :
    ∀ c ∈ l.data, isWsChar c = true := by
  have h2 : ((l.data.dropWhile isWsChar).reverse.dropWhile isWsChar).reverse
      = [] := by
    have := congrArg String.data h
    simpa [jsTrim] using this
  rw [List.reverse_eq_nil_iff, List.dropWhile_eq_nil_iff] at h2
  intro c hc
  rw [← List.takeWhile_append_dropWhile (p := isWsChar) (l := l.data)] at hc
  rcases List.mem_append.1 hc with h3 | h3
  · exact List.mem_takeWhile_imp h3
  · exact h2 c (List.mem_reverse.2 h3)

/-- A line that yields an environment key is not blank (it contains the
non-whitespace character `=`), so the non-blank filter keeps it. -/
theorem envLineKey_trim_ne (l k : String) (h : envLineKey l = some k) :
    jsTrim l ≠ "" := by
  intro htrim
  unfold envLineKey at h
  cases hf : l.data.findIdx? (· = '=') with
  | none => rw [hf] at h; exact Option.noConfusion h
  | some i =>
    rcases exists_of_findIdx?_eq_some hf with ⟨c, hc, hpc⟩
    have hws : isWsChar c = true := all_ws_of_jsTrim_eq_empty l htrim c hc
    have hceq : c = '=' := by simpa using hpc
    rw [hceq] at hws
    exact absurd hws (by decide)

/-- `recordInsert` keeps the key list unchanged when the key exists and
appends it otherwise. -/
theorem recordInsert_map_fst (env : List (String × String)) (k v : String) :
    (recordInsert env k v).map Prod.fst =
      if env.any (fun p => p.1 = k) then env.map Prod.fst
      else env.map Prod.fst ++ [k] := by
  unfold recordInsert
  split
  · rw [List.map_map]
    refine List.map_congr_left ?_
    intro p _
    by_cases h : p.1 = k
    · simp [h]
    · simp [h]
  · simp

/-- Key membership after a `recordInsert`. -/
theorem mem_keys_recordInsert (env : List (String × String)) (k v j : String) :
    j ∈ (recordInsert env k v).map Prod.fst ↔
      j ∈ env.map Prod.fst ∨ j = k := by
  rw [recordInsert_map_fst]
  by_cases h : env.any (fun p => p.1 = k)
  · rw [if_pos h]
    constructor
    · exact Or.inl
    · rintro (hj | rfl)
      · exact hj
      · rcases List.any_eq_true.1 h with ⟨p, hp, hpk⟩
        exact List.mem_map.2 ⟨p, hp, by simpa using hpk⟩
  · rw [if_neg h]
    simp

/-- Every pair of a `recordInsert` result is an old pair or the inserted
one. -/
theorem mem_recordInsert (env : List (String × String)) (k v j w : String)
    (h : (j, w) ∈ recordInsert env k v) :
    (j, w) ∈ env ∨ (j = k ∧ w = v) := by
  unfold recordInsert at h
  split at h
  · rcases List.mem_map.1 h with ⟨p, hp, hpe⟩
    by_cases hk : p.1 = k
    · rw [if_pos hk] at hpe
      right
      exact ⟨(Prod.mk.injEq _ _ _ _ ▸ hpe).1.symm ▸ rfl,
        ((Prod.ext_iff.1 hpe).2).symm⟩
    · rw [if_neg hk] at hpe
      left
      exact hpe ▸ hp
  · rcases List.mem_append.1 h with h1 | h1
    · exact Or.inl h1
    · right
      have := List.mem_singleton.1 h1
      exact ⟨(Prod.ext_iff.1 this).1, (Prod.ext_iff.1 this).2⟩

/-- The keys accumulated by the environment fold are the starting keys
plus exactly the keys of the valid lines. -/
theorem envFold_keys (lines : List String) :
    ∀ (env : List (String × String)) (k : String),
    k ∈ (lines.foldl envStep env).map Prod.fst ↔
      k ∈ env.map Prod.fst ∨ ∃ l ∈ lines, envLineKey l = some k := by
  induction lines with
  | nil => intro env k; simp
  | cons l ls ih =>
    intro env k
    rw [List.foldl_cons, ih]
    constructor
    · rintro (hk | ⟨l', hl', hkey⟩)
      · unfold envStep at hk
        cases he : envLineKey l with
        | none => rw [he] at hk; exact Or.inl hk
        | some key =>
          rw [he] at hk
          rcases (mem_keys_recordInsert env key (envLineValue l) k).1 hk with
            hk2 | rfl
          · exact Or.inl hk2
          · exact Or.inr ⟨l, List.mem_cons_self l ls, he⟩
      · exact Or.inr ⟨l', List.mem_cons_of_mem l hl', hkey⟩
    · rintro (hk | ⟨l', hl', hkey⟩)
      · left
        unfold envStep
        cases he : envLineKey l with
        | none => exact hk
        | some key =>
          exact (mem_keys_recordInsert env key (envLineValue l) k).2 (Or.inl hk)
      · rcases List.mem_cons.1 hl' with rfl | hls
        · left
          unfold envStep
          rw [hkey]
          exact (mem_keys_recordInsert env k (envLineValue l') k).2 (Or.inr rfl)
        · exact Or.inr ⟨l', hls, hkey⟩

/-- Every pair accumulated by the environment fold is a starting pair or
comes from a valid line (its key, and the trimmed text after its first
`=`). -/
theorem envFold_pairs (lines : List String) :
    ∀ (env : List (String × String)) (k v : String),
    (k, v) ∈ lines.foldl envStep env →
      (k, v) ∈ env ∨
        ∃ l ∈ lines, envLineKey l = some k ∧ envLineValue l = v := by
  induction lines with
  | nil =>
    intro env k v h
    exact Or.inl (by simpa using h)
  | cons l ls ih =>
    intro env k v h
    rw [List.foldl_cons] at h
    rcases ih _ k v h with h1 | ⟨l', hl', hkey, hval⟩
    · unfold envStep at h1
      cases he : envLineKey l with
      | none => rw [he] at h1; exact Or.inl h1
      | some key =>
        rw [he] at h1
        rcases mem_recordInsert env key (envLineValue l) k v h1 with
          h2 | ⟨rfl, rfl⟩
        · exact Or.inl h2
        · exact Or.inr ⟨l, List.mem_cons_self l ls, he, rfl⟩
    · exact Or.inr ⟨l', List.mem_cons_of_mem l hl', hkey, hval⟩

/-- Keys of the parsed environment: exactly the textarea lines whose
first `=` is preceded by a nonempty (after trimming) key. -/
theorem parseEnv_keys (text k : String) :
    k ∈ (parseEnv text).map Prod.fst ↔
      ∃ l ∈ jsSplitChar text '\n', envLineKey l = some k := by
  unfold parseEnv
  rw [envFold_keys]
  simp only [List.map_nil, List.not_mem_nil, false_or]
  constructor
  · rintro ⟨l, hl, hkey⟩
    exact ⟨l, (List.mem_filter.1 hl).1, hkey⟩
  · rintro ⟨l, hl, hkey⟩
    exact ⟨l, List.mem_filter.2
      ⟨hl, by simpa using envLineKey_trim_ne l k hkey⟩, hkey⟩

/-- Every pair of the parsed environment comes from a textarea line of
the form `KEY=value`. -/
theorem parseEnv_pairs (text k v : String) (h : (k, v) ∈ parseEnv text) :
    ∃ l ∈ jsSplitChar text '\n',
      envLineKey l = some k ∧ envLineValue l = v := by
  unfold parseEnv at h
  rcases envFold_pairs _ _ k v h with h1 | ⟨l, hl, hkey, hval⟩
  · simp at h1
  · exact ⟨l, (List.mem_filter.1 hl).1, hkey, hval⟩

/-- C6 counterexample: editing an existing server whose stored id is the
empty string ("falsy" in JS) does not preserve the id — `save` replaces
it with a fresh `mcp-<timestamp>` id. -/
theorem mcpServerModalSave_id_not_preserved :
    (mcpServerModalSave
      ⟨some ⟨"", "fs", "npx", [], none, false⟩, "fs", "npx", "", ""⟩
      5).map McpServerConfig.id = some "mcp-5" ∧
    (some (⟨"", "fs", "npx", [], none, false⟩ : McpServerConfig)).map
      McpServerConfig.id = some "" ∧
    ("mcp-5" : String) ≠ "" := by
  exact ⟨by decide, rfl, by decide⟩

/-- C6 amended: `McpServerModal.save` rejects exactly when the trimmed
name or trimmed command is empty; otherwise it produces a configuration
with the trimmed name and command, the whitespace-split argument string
(empty list for an empty string), an environment consisting exactly of
the textarea lines of the form `KEY=value` with a nonempty trimmed key
before the first `=` (omitted entirely when no such line exists), the
enabled flag defaulting to true for a new server, and the id preserved
when editing an existing server whose id is nonempty (a falsy empty id
is replaced by a fresh timestamp-based id). -/
theorem mcpServerModalSave_spec :
    ∀ (m : McpModalState) (now : Nat),
    (mcpServerModalSave m now = none ↔
      (jsTrim m.nameValue = "" ∨ jsTrim m.commandValue = "")) ∧
    (∀ cfg, mcpServerModalSave m now = some cfg →
      cfg.name = jsTrim m.nameValue ∧
      cfg.command = jsTrim m.commandValue ∧
      cfg.args =
        (if jsTrim m.argsValue ≠ "" then jsSplitWs (jsTrim m.argsValue)
          else []) ∧
      cfg.env =
        (if (parseEnv m.envValue).length > 0 then some (parseEnv m.envValue)
          else none) ∧
      (∀ k, k ∈ (parseEnv m.envValue).map Prod.fst ↔
        ∃ l ∈ jsSplitChar m.envValue '\n', envLineKey l = some k) ∧
      (∀ k v, (k, v) ∈ parseEnv m.envValue →
        ∃ l ∈ jsSplitChar m.envValue '\n',
          envLineKey l = some k ∧ envLineValue l = v) ∧
      (m.server = none →
        cfg.enabled = true ∧ cfg.id = "mcp-" ++ toString now) ∧
      (∀ srv, m.server = some srv →
        cfg.enabled = srv.enabled ∧ (srv.id ≠ "" → cfg.id = srv.id))) := by
  intro m now
  by_cases h1 : jsTrim m.nameValue = ""
  · refine ⟨by simp [mcpServerModalSave, h1], fun cfg hc => ?_⟩
    rw [show mcpServerModalSave m now = none from by
      simp [mcpServerModalSave, h1]] at hc
    exact Option.noConfusion hc
  · by_cases h2 : jsTrim m.commandValue = ""
    · refine ⟨by simp [mcpServerModalSave, h1, h2], fun cfg hc => ?_⟩
      rw [show mcpServerModalSave m now = none from by
        simp [mcpServerModalSave, h1, h2]] at hc
      exact Option.noConfusion hc
    · constructor
      · simp [mcpServerModalSave, h1, h2]
      · intro cfg hc
        simp only [mcpServerModalSave] at hc
        rw [if_neg h1, if_neg h2, Option.some.injEq] at hc
        subst hc
        refine ⟨rfl, rfl, rfl, rfl, fun k => parseEnv_keys _ _,
          fun k v => parseEnv_pairs _ k v, fun hnone => ?_, fun srv hsrv => ?_⟩
        · rw [hnone]
          exact ⟨rfl, rfl⟩
        · rw [hsrv]
          refine ⟨rfl, fun hid => ?_⟩
          simp [hid]

/-- Witness for C6's amended theorem: a new-server save produces the
trimmed name, and an edit of a server with nonempty id keeps that id. -/
theorem mcpServerModalSave_spec_witness :
    (⟨"mcp-3", "git", "npx", ["-y", "pkg"], some [("A", "1"), ("B", "2")],
      true⟩ : McpServerConfig).name = jsTrim " git " ∧
    (⟨"srv1", "fs2", "node", [], none, false⟩ : McpServerConfig).id =
      (⟨"srv1", "fs", "node", [], none, false⟩ : McpServerConfig).id :=
  ⟨((mcpServerModalSave_spec
      ⟨none, " git ", " npx ", " -y  pkg ", "A=1\n\nbad\nB = 2 "⟩ 3).2
      ⟨"mcp-3", "git", "npx", ["-y", "pkg"], some [("A", "1"), ("B", "2")],
        true⟩ (by decide)).1,
   (((mcpServerModalSave_spec
      ⟨some ⟨"srv1", "fs", "node", [], none, false⟩, "fs2", "node", "", ""⟩
      9).2 ⟨"srv1", "fs2", "node", [], none, false⟩ (by decide)).2.2.2.2.2.2.2
      ⟨"srv1", "fs", "node", [], none, false⟩ rfl).2 (by decide)⟩
